import Mathlib

/-!
Verification development for the LocalNotes storage engine
(`src-tauri/src/storage.rs`, `src-tauri/src/models.rs`).

The Rust storage layer is shallowly embedded: pure text-scanning functions
become Lean functions over `List Char` / `String`, filesystem state (the
version directory, the index file) is passed explicitly, and code paths that
can panic in Rust are modelled with `Option` (`none` = panic).  Unicode
character classes of the Rust standard library (`char::is_alphanumeric`,
`str::to_lowercase`) are modelled on their ASCII fragment; Unicode
whitespace and the `Cc` control category are modelled in full.
-/

namespace LocalNotes

/- ## Character classes and basic string operations -/

/-- Rust `char::is_control`: the Unicode `Cc` category,
`U+0000..U+001F` and `U+007F..U+009F`. -/
def rustIsControl (c : Char) : Bool :=
  c.toNat < 32 || (127 ≤ c.toNat && c.toNat ≤ 159)

/-- Code points with the Unicode `White_Space` property
(what Rust `char::is_whitespace` / `str::trim` use). -/
def wsCodes : List Nat :=
  [9, 10, 11, 12, 13, 32, 0x85, 0xA0, 0x1680,
   0x2000, 0x2001, 0x2002, 0x2003, 0x2004, 0x2005, 0x2006, 0x2007,
   0x2008, 0x2009, 0x200A, 0x2028, 0x2029, 0x202F, 0x205F, 0x3000]

/-- Rust `char::is_whitespace`. -/
def rustIsWhitespace (c : Char) : Bool :=
  wsCodes.contains c.toNat

/-- ASCII fragment of Rust `char::to_lowercase`. -/
def asciiToLower (c : Char) : Char :=
  if 65 ≤ c.toNat && c.toNat ≤ 90 then Char.ofNat (c.toNat + 32) else c

/-- Rust `str::to_lowercase` (ASCII fragment). -/
def rustToLower (s : String) : String :=
  String.mk (s.data.map asciiToLower)

/-- Drop leading and trailing whitespace of a character list
(Rust `str::trim`, char-level). -/
def trimChars (l : List Char) : List Char :=
  ((l.dropWhile rustIsWhitespace).reverse.dropWhile rustIsWhitespace).reverse

/-- Rust `str::trim`. -/
def rustTrim (s : String) : String :=
  String.mk (trimChars s.data)

/-- Lexicographic (code-point, equivalently UTF-8 byte) strict order on
character lists; this is the order of Rust `str::cmp`. -/
def charListLtB : List Char → List Char → Bool
  | [], [] => false
  | [], _ :: _ => true
  | _ :: _, [] => false
  | a :: as, b :: bs =>
    if a.toNat < b.toNat then true
    else if b.toNat < a.toNat then false
    else charListLtB as bs

/-- Strict string order (Rust `str::cmp` returning `Less`). -/
def strLtB (a b : String) : Bool :=
  charListLtB a.data b.data

/-- Non-strict string order. -/
def strLeB (a b : String) : Bool :=
  !(charListLtB b.data a.data)

/-- Rust `str::starts_with` for a string pattern. -/
def strStartsWith (s pat : String) : Bool :=
  pat.data.isPrefixOf s.data

/-- Rust `str::ends_with` for a string pattern. -/
def strEndsWith (s pat : String) : Bool :=
  s.data.drop (s.data.length - pat.data.length) == pat.data

/-- Drop the first `n` characters of a string.  Used to model Rust byte
slicing `&s[n..]` at positions where the prefix is known to be ASCII. -/
def strDropChars (s : String) (n : Nat) : String :=
  String.mk (s.data.drop n)

/-- Is `needle` an infix of `hay`?  (Rust `str::contains`.) -/
def listInfix (needle : List Char) : List Char → Bool
  | [] => needle.isEmpty
  | h :: t => needle.isPrefixOf (h :: t) || listInfix needle t

/-- Rust `str::contains` with a string pattern. -/
def containsSubstr (hay needle : String) : Bool :=
  listInfix needle.data hay.data

/-- Accumulator-based splitter behind `splitWhitespaceStr`. -/
def splitWsAux : List Char → List Char → List (List Char)
  | [], acc => if acc.isEmpty then [] else [acc.reverse]
  | c :: cs, acc =>
    if rustIsWhitespace c then
      (if acc.isEmpty then splitWsAux cs [] else acc.reverse :: splitWsAux cs [])
    else splitWsAux cs (c :: acc)

/-- Rust `str::split_whitespace`: non-empty runs between whitespace. -/
def splitWhitespaceStr (s : String) : List String :=
  (splitWsAux s.data []).map String.mk

/-- UTF-8 byte length of a character list (Rust `str::len`). -/
def utf8Len (l : List Char) : Nat :=
  (l.map Char.utf8Size).sum

/-- One line of Rust `str::lines`: a final `\r` (from `\r\n`) is stripped. -/
def mkLine (l : List Char) : String :=
  String.mk (if l.getLast? == some '\r' then l.dropLast else l)

/-- Accumulator-based scanner behind `rustLines`. -/
def rustLinesAux : List Char → List Char → List String
  | [], acc => if acc.isEmpty then [] else [mkLine acc.reverse]
  | c :: cs, acc =>
    if c == '\n' then mkLine acc.reverse :: rustLinesAux cs []
    else rustLinesAux cs (c :: acc)

/-- Rust `str::lines`: split on `\n` treated as a terminator. -/
def rustLines (s : String) : List String :=
  rustLinesAux s.data []

/- ## Data model (`models.rs`) -/

/-- `ImageRef` of `models.rs` (field `added_at` serialized as `addedAt`). -/
structure ImageRef where
  name : String
  path : String
  addedAt : String
  size : Option Nat
deriving DecidableEq

/-- `NoteMeta` of `models.rs`. -/
structure NoteMeta where
  id : String
  title : String
  createdAt : String
  updatedAt : String
  important : Bool
  filename : String
  images : List ImageRef
  tags : List String
  linksTo : List String
  isDaily : Bool
  notebookId : Option String
deriving DecidableEq

/-- `Notebook` of `models.rs`. -/
structure Notebook where
  id : String
  name : String
  archived : Bool
  createdAt : String
deriving DecidableEq

/-- `IndexFile` of `models.rs`: the single aggregate metadata root. -/
structure IndexFile where
  notes : List NoteMeta
  notebooks : List Notebook
deriving DecidableEq

/-- `VersionSnapshot` of `models.rs` (`savedAt`, `title`, `body`). -/
structure VersionSnapshot where
  savedAt : String
  title : String
  body : String
deriving DecidableEq

/- ## PathSandbox (`storage.rs` lines 93-121) -/

/-- Characters replaced by `_` in `sanitize_filename`. -/
def forbiddenChars : List Char :=
  ['/', '\\', ':', '*', '?', '\"', '<', '>', '|', Char.ofNat 0]

/-- Per-character step of `sanitize_filename`. -/
def sanitizeChar (c : Char) : Char :=
  if c ∈ forbiddenChars then '_'
  else if rustIsControl c then '_'
  else c

/-- `sanitize_filename` (`storage.rs` 94-107): replace dangerous characters
with `_`, trim surrounding whitespace, then keep the first 200 characters. -/
def sanitize_filename (s : String) : String :=
  String.mk ((trimChars (s.data.map sanitizeChar)).take 200)

/-- `validate_note_id` (`storage.rs` 110-121). -/
def validate_note_id (id : String) : Except String Unit :=
  if id.data.isEmpty then Except.error "Note id cannot be empty"
  else if id.data.contains '/' || id.data.contains '\\' || id == "." || id == ".." then
    Except.error "Invalid note id"
  else if id.data.any rustIsControl then Except.error "Invalid note id"
  else Except.ok ()

/- ## Annotator: tag extraction (`storage.rs` 14-53) -/

/-- Characters allowed inside a `#tag` (`is_alphanumeric` modelled on its
ASCII fragment, plus `_` and `-`). -/
def tagCharOk (c : Char) : Bool :=
  c.isAlphanum || c == '_' || c == '-'

/-- Record a finished tag (non-empty accumulator, reversed). -/
def pushTag (t : List Char) (acc : List String) : List String :=
  if t.isEmpty then acc else acc ++ [String.mk t.reverse]

/-- Single-pass scanner of `extract_tags_from_body`: the `Option` state is
the reversed accumulator of the tag currently being read. -/
def tagsLoop : List Char → Option (List Char) → List String → List String
  | [], none, acc => acc
  | [], some t, acc => pushTag t acc
  | c :: cs, none, acc =>
    if c == '#' then tagsLoop cs (some []) acc else tagsLoop cs none acc
  | c :: cs, some t, acc =>
    if tagCharOk c then tagsLoop cs (some (c :: t)) acc
    else if c == '#' then tagsLoop cs (some []) (pushTag t acc)
    else tagsLoop cs none (pushTag t acc)

/-- Ascending sort by the byte order of Rust `Vec::<String>::sort`. -/
def sortStr (l : List String) : List String :=
  List.insertionSort (fun a b => strLeB a b = true) l

/-- `extract_tags_from_body` (`storage.rs` 15-36): collect `#tag` runs into
a set, return them sorted. -/
def extract_tags_from_body (body : String) : List String :=
  sortStr (tagsLoop body.data none []).dedup

/-- Characters kept by the title-slug builder. -/
def slugKeep (c : Char) : Bool :=
  c.isAlphanum || c == ' ' || c == '-' || c == '_'

/-- Join words with `-` (Rust `Vec::join("-")`). -/
def joinHyphen : List (List Char) → List Char
  | [] => []
  | [w] => w
  | w :: ws => w ++ '-' :: joinHyphen ws

/-- The slug computed by `extract_tags_from_title`. -/
def slugOf (title : String) : String :=
  String.mk (joinHyphen
    ((splitWsAux (title.data.map (fun c => if slugKeep c then c else ' ')) []).map
      (fun w => w.map asciiToLower)))

/-- `extract_tags_from_title` (`storage.rs` 39-53): a single slug tag when
the slug has byte length ≥ 2 and contains an alphanumeric character. -/
def extract_tags_from_title (title : String) : List String :=
  let slug := slugOf title
  if 2 ≤ utf8Len slug.data && slug.data.any (fun c => c.isAlphanum) then [slug] else []

/- ## Annotator: wiki-link extraction (`storage.rs` 56-91) -/

/-- Resolve one captured `[[...]]` title: trim it, and if non-empty return
the id of the first note (other than `excludeId`) whose title matches
case-insensitively (`storage.rs` 76-85). -/
def resolveLinkTitle (notes : List NoteMeta) (excludeId : String) (t : List Char) :
    Option String :=
  let tt := trimChars t
  if tt.isEmpty then none
  else
    (notes.find? (fun n =>
      !(n.id == excludeId) && rustToLower n.title == rustToLower (String.mk tt))).map
      (fun n => n.id)

/-- Insert the resolution of one captured title into the accumulator
(the Rust code inserts into a `HashSet`; duplicates are removed at the end). -/
def resolveInto (notes : List NoteMeta) (excludeId : String) (t : List Char)
    (acc : List String) : List String :=
  match resolveLinkTitle notes excludeId t with
  | none => acc
  | some i => i :: acc

/-- Single-pass scanner of `extract_links_from_body`.  The `Option` state is
the reversed accumulator of the title being captured inside `[[ ]]`.
`none` as a result models the Rust panic at `storage.rs` 71: after consuming
a `]` that is the last character, the code calls `chars.next().unwrap()`
on an exhausted iterator. -/
def linksLoop (notes : List NoteMeta) (excludeId : String) :
    List Char → Option (List Char) → List String → Option (List String)
  | [], none, acc => some (sortStr acc.dedup)
  | [], some t, acc => some (sortStr (resolveInto notes excludeId t.reverse acc).dedup)
  | '[' :: '[' :: cs, none, acc => linksLoop notes excludeId cs (some []) acc
  | _ :: cs, none, acc => linksLoop notes excludeId cs none acc
  | ']' :: ']' :: cs, some t, acc =>
    linksLoop notes excludeId cs none (resolveInto notes excludeId t.reverse acc)
  | [']'], some _, _ => none
  | ']' :: c :: cs, some t, acc => linksLoop notes excludeId cs (some (c :: ']' :: t)) acc
  | c :: cs, some t, acc => linksLoop notes excludeId cs (some (c :: t)) acc

/-- `extract_links_from_body` (`storage.rs` 56-91): scan for `[[Title]]`
tokens, resolve each to a note id, return the sorted de-duplicated ids.
Returns `none` when the Rust original panics. -/
def extract_links_from_body (body : String) (notes : List NoteMeta)
    (excludeId : String) : Option (List String) :=
  linksLoop notes excludeId body.data none []

/- ## Saving notes (`storage.rs` 236-342) -/

/-- The tag list computed at the top of `save_note` (`storage.rs` 246-253):
the body tags and title tags are merged through a `HashSet` and sorted. -/
def saveTags (title body : String) : List String :=
  sortStr (extract_tags_from_body body ++ extract_tags_from_title title).dedup

/-- The `NoteMeta` literal built for a brand-new note in `save_note`
(`storage.rs` 298-315 and 318-335). -/
def new_note_meta (id title now : String) (tags linksTo : List String) : NoteMeta :=
  { id := id, title := title, createdAt := now, updatedAt := now,
    important := false, filename := id ++ ".txt", images := [],
    tags := tags, linksTo := linksTo, isDaily := false, notebookId := none }

/-- Update the first element satisfying `p` (Rust
`iter().position` + `get_mut`); `none` when no element matches. -/
def updateFirst (p : α → Bool) (f : α → α) : List α → Option (α × List α)
  | [] => none
  | x :: xs =>
    if p x then some (f x, f x :: xs)
    else (updateFirst p f xs).map (fun r => (r.1, x :: r.2))

/-- The index transformation of `save_note` (`storage.rs` 236-342), with the
filesystem side effects elided: given the current notes list, an optional
explicit id, the new title/body, the current timestamp `now`, and the UUID
`freshId` that would be generated for the id-less branch, return the saved
note's metadata and the new notes list.  The outer `Option` is `none` when
the Rust original panics (inside link extraction); the `Except` carries the
id-validation error. -/
def save_note_pure (notes : List NoteMeta) (noteId : Option String)
    (title body now freshId : String) :
    Option (Except String (NoteMeta × List NoteMeta)) :=
  match extract_links_from_body body notes (noteId.getD "") with
  | none => none
  | some links =>
    let tags := saveTags title body
    match noteId with
    | some id =>
      match validate_note_id id with
      | Except.error e => some (Except.error e)
      | Except.ok _ =>
        match updateFirst (fun n => n.id == id)
            (fun n => { n with title := title, updatedAt := now,
                               tags := tags, linksTo := links }) notes with
        | some r => some (Except.ok r)
        | none =>
          let meta := new_note_meta id title now tags links
          some (Except.ok (meta, notes ++ [meta]))
    | none =>
      let meta := new_note_meta freshId title now tags links
      some (Except.ok (meta, notes ++ [meta]))

/- ## Tag mutation (`storage.rs` 549-570) -/

/-- `add_tag_to_notes` (`storage.rs` 549-570): for every note whose id is in
`noteIds` and whose tags do not already contain the trimmed tag, push the
tag at the end and refresh `updatedAt`.  Returns the new index and the list
of updated notes. -/
def add_tag_to_notes (index : List NoteMeta) (noteIds : List String)
    (tag : String) (now : String) : List NoteMeta × List NoteMeta :=
  if noteIds.isEmpty || (rustTrim tag).data.isEmpty then (index, [])
  else
    let tg := rustTrim tag
    (index.map (fun n =>
      if decide (n.id ∈ noteIds) && !(decide (tg ∈ n.tags)) then
        { n with tags := n.tags ++ [tg], updatedAt := now }
      else n),
     index.filterMap (fun n =>
      if decide (n.id ∈ noteIds) && !(decide (tg ∈ n.tags)) then
        some { n with tags := n.tags ++ [tg], updatedAt := now }
      else none))

/- ## VersionVault (`storage.rs` 158-164, 262-290) -/

/-- `MAX_VERSIONS_PER_NOTE` (`storage.rs` 159). -/
def MAX_VERSIONS_PER_NOTE : Nat := 30

/-- `version_filename` (`storage.rs` 162-164): the `saved_at` timestamp with
every `:` replaced by `-`, suffixed `.json`. -/
def version_filename (savedAt : String) : String :=
  String.mk (savedAt.data.map (fun c => if c == ':' then '-' else c)) ++ ".json"

/-- The snapshot written by `save_note` before overwriting an existing body
(`storage.rs` 268-272): `saved_at` is the note's current (pre-update)
`updated_at`. -/
def snapshot_of (n : NoteMeta) (bodyOnDisk : String) : VersionSnapshot :=
  { savedAt := n.updatedAt, title := n.title, body := bodyOnDisk }

/-- Descending filename sort (`names.sort_by(|a, b| b.cmp(a))`). -/
def sortStrDesc (l : List String) : List String :=
  List.insertionSort (fun a b => strLeB b a = true) l

/-- The version-directory transformation of one snapshot write
(`storage.rs` 273-289): write the snapshot file (a set-insert of its
filename), then list the `.json` files, sort descending, and delete every
file beyond the `MAX_VERSIONS_PER_NOTE` most recent. -/
def versionStep (dir : List String) (savedAt : String) : List String :=
  let name := version_filename savedAt
  let dir1 := if name ∈ dir then dir else dir ++ [name]
  let names := dir1.filter (fun f => strEndsWith f ".json")
  let toDelete := (sortStrDesc names).drop MAX_VERSIONS_PER_NOTE
  dir1.filter (fun f => !(decide (f ∈ toDelete)))

/- ## Version list preview (`storage.rs` 1350-1356) -/

/-- Rust byte slicing `&s[..n]` on the character list of a UTF-8 string:
`none` models the panic when `n` is not a character boundary (or exceeds
the length). -/
def takeUtf8Bytes : List Char → Nat → Option (List Char)
  | _, 0 => some []
  | [], _ + 1 => none
  | c :: cs, n + 1 =>
    if c.utf8Size ≤ n + 1 then (takeUtf8Bytes cs (n + 1 - c.utf8Size)).map (fun l => c :: l)
    else none

/-- The body preview computed by `list_note_versions` (`storage.rs`
1351-1356): bodies of at most 150 bytes are kept whole, longer bodies are
sliced at byte 150 (`&snapshot.body[..150]`, which panics off a character
boundary — modelled by `none`) with an ellipsis appended. -/
def body_preview (body : String) : Option String :=
  if utf8Len body.data ≤ 150 then some body
  else (takeUtf8Bytes body.data 150).map (fun l => String.mk (l ++ ['…']))

/- ## QueryEngine (`storage.rs` 991-1109) -/

/-- `body_has_task_lines` (`storage.rs` 992-1008):
(has unchecked checkbox line, has checked checkbox line). -/
def body_has_task_lines (body : String) : Bool × Bool :=
  let ts := (rustLines body).map rustTrim
  (ts.any (fun t => strStartsWith t "- [ ]" || strStartsWith t "* [ ]"),
   ts.any (fun t => strStartsWith t "- [x]" || strStartsWith t "- [X]" ||
                    strStartsWith t "* [x]" || strStartsWith t "* [X]"))

/-- The mutable filter state accumulated by the token loop of
`search_notes` (`storage.rs` 1025-1031). -/
structure QueryFilter where
  tagFilter : Option String
  starredOnly : Bool
  dateFilter : Option String
  hasAttachmentsOnly : Bool
  hasTasksOnly : Bool
  taskFilter : Option Bool
  textParts : List String
deriving DecidableEq

/-- The initial filter state (`storage.rs` 1025-1031). -/
def emptyQueryFilter : QueryFilter :=
  { tagFilter := none, starredOnly := false, dateFilter := none,
    hasAttachmentsOnly := false, hasTasksOnly := false, taskFilter := none,
    textParts := [] }

/-- One iteration of the token-classification loop of `search_notes`
(`storage.rs` 1032-1058). -/
def classifyToken (f : QueryFilter) (part : String) : QueryFilter :=
  let pl := rustToLower part
  if strStartsWith pl "tag:" then
    (if rustTrim (strDropChars pl 4) == "" then f
     else { f with tagFilter := some (rustTrim (strDropChars pl 4)) })
  else if pl == "is:starred" then { f with starredOnly := true }
  else if pl == "date:today" then { f with dateFilter := some "today" }
  else if pl == "date:week" then { f with dateFilter := some "week" }
  else if pl == "date:month" then { f with dateFilter := some "month" }
  else if pl == "has:attachments" then { f with hasAttachmentsOnly := true }
  else if pl == "has:tasks" then { f with hasTasksOnly := true }
  else if pl == "is:completed" then { f with taskFilter := some true }
  else if pl == "is:uncompleted" then { f with taskFilter := some false }
  else { f with textParts := f.textParts ++ [pl] }

/-- The per-note predicate of `search_notes` (`storage.rs` 1059-1106).
`bodies` models on-demand body reads: `fs::read_to_string(note_path(id))
.unwrap_or_default()`, keyed by note id.  `today`, `weekStart` and
`monthStart` are the three day-boundary strings computed from the clock at
`storage.rs` 1022-1024. -/
def matches_filter (bodies : String → String) (today weekStart monthStart : String)
    (f : QueryFilter) (n : NoteMeta) : Bool :=
  (match f.tagFilter with
   | some tg => n.tags.any (fun t => rustToLower t == tg)
   | none => true) &&
  (!f.starredOnly || n.important) &&
  (match f.dateFilter with
   | some dk =>
     let noteDate := String.mk (n.updatedAt.data.take 10)
     if dk == "today" then noteDate == today
     else if dk == "week" then strLeB weekStart noteDate
     else if dk == "month" then strLeB monthStart noteDate
     else true
   | none => true) &&
  (!f.hasAttachmentsOnly || !n.images.isEmpty) &&
  (if f.hasTasksOnly || f.taskFilter.isSome then
    let hc := body_has_task_lines (bodies n.id)
    (!f.hasTasksOnly || (hc.1 || hc.2)) &&
    (match f.taskFilter with
     | some true => hc.2
     | some false => hc.1
     | none => true)
   else true) &&
  (f.textParts.isEmpty ||
   f.textParts.all (fun term =>
     containsSubstr (rustToLower n.title) term ||
     containsSubstr (rustToLower (bodies n.id)) term))

/-- Final descending sort by `updated_at` (`storage.rs` 1107). -/
def sortNotesDesc (l : List NoteMeta) : List NoteMeta :=
  List.insertionSort (fun a b => strLeB b.updatedAt a.updatedAt = true) l

/-- `search_notes` after tokenization: classify the tokens, filter, sort. -/
def search_tokens (notes : List NoteMeta) (bodies : String → String)
    (today weekStart monthStart : String) (toks : List String) : List NoteMeta :=
  sortNotesDesc (notes.filter
    (matches_filter bodies today weekStart monthStart
      (toks.foldl classifyToken emptyQueryFilter)))

/-- `search_notes` (`storage.rs` 1011-1109): empty/whitespace query returns
the index unchanged, otherwise split on whitespace and evaluate. -/
def search_notes (notes : List NoteMeta) (bodies : String → String)
    (query : String) (today weekStart monthStart : String) : List NoteMeta :=
  if rustTrim query == "" then notes
  else search_tokens notes bodies today weekStart monthStart
    (splitWhitespaceStr (rustTrim query))

/-- The tag value a token contributes to the filter state, if any:
`classifyToken` sets `tagFilter` exactly on tokens whose lower-casing
starts with `tag:` followed by a non-empty trimmed value. -/
def tagValueOf (part : String) : Option String :=
  let pl := rustToLower part
  if strStartsWith pl "tag:" then
    (if rustTrim (strDropChars pl 4) == "" then none
     else some (rustTrim (strDropChars pl 4)))
  else none

/- ## IndexStore serialization (`storage.rs` 182-203, `models.rs`) -/

/-- JSON values, the common structure of `serde_json::to_string_pretty` and
`serde_json::from_str` (their text printing/parsing layer is the identity on
this structure and is not re-modelled). -/
inductive Json where
  | null : Json
  | bool : Bool → Json
  | num : Nat → Json
  | str : String → Json
  | arr : List Json → Json
  | obj : List (String × Json) → Json

/-- Look up a field of a JSON object. -/
def jGet (fields : List (String × Json)) (k : String) : Option Json :=
  (fields.find? (fun p => p.1 == k)).map (fun p => p.2)

/-- serde `Serialize` for `ImageRef` (field order and renames of
`models.rs` 3-12; `size` is `Option<u64>`). -/
def encodeImageRef (r : ImageRef) : Json :=
  Json.obj
    [("name", Json.str r.name), ("path", Json.str r.path),
     ("addedAt", Json.str r.addedAt),
     ("size", match r.size with | none => Json.null | some n => Json.num n)]

/-- serde `Serialize` for `NoteMeta` (`models.rs` 14-33). -/
def encodeNoteMeta (n : NoteMeta) : Json :=
  Json.obj
    [("id", Json.str n.id), ("title", Json.str n.title),
     ("createdAt", Json.str n.createdAt), ("updatedAt", Json.str n.updatedAt),
     ("important", Json.bool n.important), ("filename", Json.str n.filename),
     ("images", Json.arr (n.images.map encodeImageRef)),
     ("tags", Json.arr (n.tags.map Json.str)),
     ("linksTo", Json.arr (n.linksTo.map Json.str)),
     ("isDaily", Json.bool n.isDaily),
     ("notebookId", match n.notebookId with | none => Json.null | some s => Json.str s)]

/-- serde `Serialize` for `Notebook` (`models.rs` 35-43). -/
def encodeNotebook (nb : Notebook) : Json :=
  Json.obj
    [("id", Json.str nb.id), ("name", Json.str nb.name),
     ("archived", Json.bool nb.archived), ("createdAt", Json.str nb.createdAt)]

/-- serde `Serialize` for `IndexFile` (`models.rs` 45-50). -/
def encodeIndexFile (x : IndexFile) : Json :=
  Json.obj
    [("notes", Json.arr (x.notes.map encodeNoteMeta)),
     ("notebooks", Json.arr (x.notebooks.map encodeNotebook))]

/-- Decode a JSON string. -/
def asStr : Json → Option String
  | Json.str s => some s
  | _ => none

/-- Decode a JSON boolean. -/
def asBool : Json → Option Bool
  | Json.bool b => some b
  | _ => none

/-- Decode an `Option<u64>` field (null ↦ `none`). -/
def asOptNat : Json → Option (Option Nat)
  | Json.null => some none
  | Json.num n => some (some n)
  | _ => none

/-- Decode an `Option<String>` field (null ↦ `none`). -/
def asOptStr : Json → Option (Option String)
  | Json.null => some none
  | Json.str s => some (some s)
  | _ => none

/-- Decode each element of a JSON array in order (serde's `Vec` visitor). -/
def decodeElems (dec : Json → Option α) : List Json → Option (List α)
  | [] => some []
  | j :: js =>
    match dec j with
    | none => none
    | some a => (decodeElems dec js).map (fun l => a :: l)

/-- Decode a JSON array. -/
def asList (dec : Json → Option α) : Json → Option (List α)
  | Json.arr js => decodeElems dec js
  | _ => none

/-- A required struct field: absent or mistyped fails the deserialization. -/
def reqField (fields : List (String × Json)) (k : String)
    (dec : Json → Option α) : Option α :=
  (jGet fields k).bind dec

/-- A `#[serde(default)]` struct field: absent falls back to the default. -/
def dfltField (fields : List (String × Json)) (k : String)
    (dec : Json → Option α) (d : α) : Option α :=
  match jGet fields k with
  | none => some d
  | some j => dec j

/-- serde `Deserialize` for `ImageRef`. -/
def decodeImageRef : Json → Option ImageRef
  | Json.obj o => do
    let name ← reqField o "name" asStr
    let path ← reqField o "path" asStr
    let addedAt ← reqField o "addedAt" asStr
    let size ← dfltField o "size" asOptNat none
    some { name := name, path := path, addedAt := addedAt, size := size }
  | _ => none

/-- serde `Deserialize` for `NoteMeta` (`tags`, `linksTo`, `isDaily`,
`notebookId` carry `#[serde(default)]`). -/
def decodeNoteMeta : Json → Option NoteMeta
  | Json.obj o => do
    let id ← reqField o "id" asStr
    let title ← reqField o "title" asStr
    let createdAt ← reqField o "createdAt" asStr
    let updatedAt ← reqField o "updatedAt" asStr
    let important ← reqField o "important" asBool
    let filename ← reqField o "filename" asStr
    let images ← reqField o "images" (asList decodeImageRef)
    let tags ← dfltField o "tags" (asList asStr) []
    let linksTo ← dfltField o "linksTo" (asList asStr) []
    let isDaily ← dfltField o "isDaily" asBool false
    let notebookId ← dfltField o "notebookId" asOptStr none
    some { id := id, title := title, createdAt := createdAt, updatedAt := updatedAt,
           important := important, filename := filename, images := images,
           tags := tags, linksTo := linksTo, isDaily := isDaily,
           notebookId := notebookId }
  | _ => none

/-- serde `Deserialize` for `Notebook` (`archived` carries
`#[serde(default)]`). -/
def decodeNotebook : Json → Option Notebook
  | Json.obj o => do
    let id ← reqField o "id" asStr
    let name ← reqField o "name" asStr
    let archived ← dfltField o "archived" asBool false
    let createdAt ← reqField o "createdAt" asStr
    some { id := id, name := name, archived := archived, createdAt := createdAt }
  | _ => none

/-- serde `Deserialize` for `IndexFile` (`notebooks` carries
`#[serde(default)]`). -/
def decodeIndexFile : Json → Option IndexFile
  | Json.obj o => do
    let notes ← reqField o "notes" (asList decodeNoteMeta)
    let notebooks ← dfltField o "notebooks" (asList decodeNotebook) []
    some { notes := notes, notebooks := notebooks }
  | _ => none

/-- Path of the index file under the storage root (`storage.rs` 142-144). -/
def indexPath : String := "meta/index.json"

/-- `write_index` (`storage.rs` 182-192) on an explicit filesystem map:
serialize the whole `IndexFile` and atomically replace the file at
`meta/index.json` (temp file + fsync + rename elided — the rename makes the
update equivalent to this map update). -/
def write_index (fs : List (String × Json)) (x : IndexFile) : List (String × Json) :=
  (indexPath, encodeIndexFile x) :: fs.filter (fun p => !(p.1 == indexPath))

/-- `read_index` (`storage.rs` 194-203): a missing file yields the default
empty index, malformed content fails (`none`). -/
def read_index (fs : List (String × Json)) : Option IndexFile :=
  match (fs.find? (fun p => p.1 == indexPath)).map (fun p => p.2) with
  | none => some { notes := [], notebooks := [] }
  | some j => decodeIndexFile j

/- ## Order infrastructure for the embedded string comparisons -/


theorem charEqOfToNat {a b : Char} (h : a.toNat = b.toNat) : a = b := by
  apply Char.eq_of_val_eq
  unfold Char.toNat at h
  exact UInt32.toNat.inj h

theorem charListLtB_irrefl : ∀ l : List Char, charListLtB l l = false := by
  intro l
  induction l with
  | nil => rfl
  | cons a t ih => simp [charListLtB, ih]

theorem charListLtB_trans : ∀ a b c : List Char,
    charListLtB a b = true → charListLtB b c = true → charListLtB a c = true := by
  intro a
  induction a with
  | nil =>
    intro b c hab hbc
    cases b <;> cases c <;> simp_all [charListLtB]
  | cons x xs ih =>
    intro b c hab hbc
    cases b with
    | nil => simp [charListLtB] at hab
    | cons y ys =>
      cases c with
      | nil => simp [charListLtB] at hbc
      | cons z zs =>
        simp [charListLtB] at hab hbc ⊢
        rcases hab with h1 | ⟨h1, r1⟩ <;> rcases hbc with h2 | ⟨h2, r2⟩
        · exact Or.inl (by omega)
        · exact Or.inl (by omega)
        · exact Or.inl (by omega)
        · by_cases hxz : x.toNat < z.toNat
          · exact Or.inl hxz
          · exact Or.inr ⟨by omega, ih ys zs r1 r2⟩

theorem charListLtB_conn : ∀ a b : List Char,
    charListLtB a b = false → charListLtB b a = false → a = b := by
  intro a
  induction a with
  | nil => intro b h1 h2; cases b <;> simp_all [charListLtB]
  | cons x xs ih =>
    intro b h1 h2
    cases b with
    | nil => simp [charListLtB] at h2
    | cons y ys =>
      simp [charListLtB] at h1 h2
      obtain ⟨hle1, himp1⟩ := h1
      obtain ⟨hle2, himp2⟩ := h2
      have hc : x = y := charEqOfToNat (by omega)
      rw [hc, ih ys (himp1 (by omega)) (himp2 (by omega))]

theorem strDataEq {a b : String} (h : a.data = b.data) : a = b := by
  cases a
  cases b
  exact congrArg String.mk h

theorem strLeB_total (a b : String) : strLeB a b = true ∨ strLeB b a = true := by
  simp only [strLeB, Bool.not_eq_true']
  by_cases h : charListLtB b.data a.data = true
  · right
    by_cases hab : charListLtB a.data b.data = true
    · have := charListLtB_trans _ _ _ h hab
      rw [charListLtB_irrefl] at this
      cases this
    · simpa using hab
  · left
    simpa using h

theorem strLeB_trans_t {a b c : String} (h1 : strLeB a b = true) (h2 : strLeB b c = true) :
    strLeB a c = true := by
  simp only [strLeB, Bool.not_eq_true'] at *
  by_cases hca : charListLtB c.data a.data = true
  · exfalso
    by_cases hbc : charListLtB b.data c.data = true
    · have := charListLtB_trans _ _ _ hbc hca
      rw [h1] at this
      cases this
    · have hbceq : b.data = c.data :=
        charListLtB_conn _ _ (by simpa using hbc) h2
      rw [hbceq] at h1
      rw [h1] at hca
      cases hca
  · simpa using hca

theorem strLeB_antisymm {a b : String} (h1 : strLeB a b = true) (h2 : strLeB b a = true) :
    a = b := by
  simp only [strLeB, Bool.not_eq_true'] at h1 h2
  exact strDataEq (charListLtB_conn a.data b.data h2 h1)

theorem strLtB_of_leB_ne {a b : String} (h1 : strLeB a b = true) (h2 : a ≠ b) :
    strLtB a b = true := by
  simp only [strLeB, Bool.not_eq_true'] at h1
  by_cases hab : charListLtB a.data b.data = true
  · simpa [strLtB] using hab
  · exact absurd (strDataEq (charListLtB_conn a.data b.data (by simpa using hab) h1)) h2

instance : IsTotal String (fun a b => strLeB a b = true) := ⟨strLeB_total⟩

instance : IsTrans String (fun a b => strLeB a b = true) := ⟨fun _ _ _ => strLeB_trans_t⟩

instance : IsTotal String (fun a b => strLeB b a = true) := ⟨fun a b => (strLeB_total b a)⟩

instance : IsTrans String (fun a b => strLeB b a = true) :=
  ⟨fun _ _ _ h1 h2 => strLeB_trans_t h2 h1⟩

instance : IsTotal NoteMeta (fun a b => strLeB b.updatedAt a.updatedAt = true) :=
  ⟨fun a b => strLeB_total b.updatedAt a.updatedAt⟩

instance : IsTrans NoteMeta (fun a b => strLeB b.updatedAt a.updatedAt = true) :=
  ⟨fun _ _ _ h1 h2 => strLeB_trans_t h2 h1⟩

theorem sortStr_sorted (l : List String) :
    List.Sorted (fun a b => strLeB a b = true) (sortStr l) :=
  List.sorted_insertionSort _ l

theorem sortStr_perm (l : List String) : (sortStr l).Perm l :=
  List.perm_insertionSort _ l

/- ## Codec round-trip lemmas -/

theorem decodeElems_map_enc {α : Type} (enc : α → Json) (dec : Json → Option α)
    (h : ∀ a, dec (enc a) = some a) :
    ∀ l : List α, decodeElems dec (l.map enc) = some l := by
  intro l
  induction l with
  | nil => rfl
  | cons a t ih => simp [decodeElems, h, ih]

theorem decodeImageRef_enc (r : ImageRef) :
    decodeImageRef (encodeImageRef r) = some r := by
  cases r with
  | mk name path addedAt size => cases size <;> rfl

theorem asStr_str (s : String) : asStr (Json.str s) = some s := rfl

theorem decodeNoteMeta_enc (n : NoteMeta) :
    decodeNoteMeta (encodeNoteMeta n) = some n := by
  cases n with
  | mk id title c u imp fn images tags links daily nb =>
    cases nb <;>
      simp [decodeNoteMeta, encodeNoteMeta, reqField, dfltField, jGet, asList,
        asStr, asBool, asOptStr,
        decodeElems_map_enc _ _ decodeImageRef_enc,
        decodeElems_map_enc _ _ asStr_str]

theorem decodeNotebook_enc (nb : Notebook) :
    decodeNotebook (encodeNotebook nb) = some nb := by
  cases nb with
  | mk id name archived createdAt => rfl

theorem decodeIndexFile_enc (x : IndexFile) :
    decodeIndexFile (encodeIndexFile x) = some x := by
  cases x with
  | mk notes notebooks =>
    simp [decodeIndexFile, encodeIndexFile, reqField, dfltField, jGet, asList,
      decodeElems_map_enc _ _ decodeNoteMeta_enc,
      decodeElems_map_enc _ _ decodeNotebook_enc]

/- ## Claim theorems -/

/-- C8: storing any valid `IndexFile` and loading it back from the same
root returns an `IndexFile` equal to the one stored — serialization
followed by deserialization of the index is the identity
(`write_index` / `read_index`, `storage.rs` 182-203). -/
theorem index_store_roundtrip (fs : List (String × Json)) (x : IndexFile) :
    read_index (write_index fs x) = some x := by
  simp [read_index, write_index, List.find?, decodeIndexFile_enc]

/-- C9 is refuted by the code: `extract_links_from_body` is *not* total.
On the body `"see [[x]"` — an unterminated `[[` token whose single `]` is
the last character of the input — the Rust scanner consumes the `]`, sees
no lookahead, and calls `chars.next().unwrap()` on the exhausted iterator
(`storage.rs` 71), which panics.  The embedding returns `none` exactly on
that panic path. -/
theorem extract_links_panics_on_trailing_bracket :
    extract_links_from_body "see [[x]" [] "" = none := rfl

set_option maxRecDepth 4096 in
/-- C4 is refuted by the code: the version-list body preview is cut at
*byte* 150 via `&snapshot.body[..150]` with no boundary check
(`storage.rs` 1352-1355).  For a snapshot body of 149 ASCII characters
followed by the two-byte character `é`, byte 150 falls inside `é` and the
slice panics instead of cutting on a safe text boundary.  The embedding
returns `none` exactly on that panic path. -/
theorem body_preview_panics_on_multibyte_boundary :
    body_preview (String.mk (List.replicate 149 'a' ++ ['é', 'x'])) = none := by
  decide


/- ## Helper lemmas about updateFirst -/

theorem updateFirst_eq_none {α : Type} (p : α → Bool) (f : α → α) :
    ∀ l : List α, (∀ x ∈ l, p x = false) → updateFirst p f l = none := by
  intro l h
  induction l with
  | nil => rfl
  | cons x xs ih =>
    simp [updateFirst, h x (by simp)]
    exact ih (fun y hy => h y (by simp [hy]))

theorem updateFirst_fst {α : Type} (p : α → Bool) (f : α → α) :
    ∀ l : List α, ∀ r, updateFirst p f l = some r → ∃ x, r.1 = f x := by
  intro l
  induction l with
  | nil => intro r h; cases h
  | cons x xs ih =>
    intro r h
    by_cases hx : p x = true
    · simp [updateFirst, hx] at h
      exact ⟨x, by rw [← h]⟩
    · simp [updateFirst, Bool.of_not_eq_true hx] at h
      obtain ⟨a, tl, ha, hr⟩ := h
      obtain ⟨y, hy⟩ := ih _ ha
      exact ⟨y, by rw [← hr]; exact hy⟩

/-- C10: calling save with an explicit id that validates but is not present
in the index does not fail with NotFound: it creates a brand-new note with
exactly that id (`created_at = updated_at = now`, `important = false`, no
images, no notebook — all packaged in `new_note_meta`) and appends it to
the index.  `save_note` is an upsert (`storage.rs` 298-315). -/
theorem save_note_upsert (notes : List NoteMeta) (id title body now freshId : String)
    (links : List String)
    (hval : validate_note_id id = Except.ok ())
    (habs : ∀ n ∈ notes, n.id ≠ id)
    (hlinks : extract_links_from_body body notes id = some links) :
    save_note_pure notes (some id) title body now freshId =
      some (Except.ok (new_note_meta id title now (saveTags title body) links,
        notes ++ [new_note_meta id title now (saveTags title body) links])) := by
  have hmiss : updateFirst (fun n => n.id == id)
      (fun n => { n with title := title, updatedAt := now,
                         tags := saveTags title body, linksTo := links }) notes = none :=
    updateFirst_eq_none _ _ notes (fun x hx => by
      simp [habs x hx])
  simp [save_note_pure, hlinks, hval, hmiss]

theorem save_note_upsert_witness :
    (validate_note_id "a1" = Except.ok () ∧
     extract_links_from_body "" [] "a1" = some []) ∧
    save_note_pure [] (some "a1") "T" "" "t0" "f0" =
      some (Except.ok (new_note_meta "a1" "T" "t0" (saveTags "T" "") [],
        [new_note_meta "a1" "T" "t0" (saveTags "T" "") []])) :=
  ⟨⟨rfl, rfl⟩, save_note_upsert [] "a1" "T" "" "t0" "f0" [] rfl (by simp) rfl⟩

/-- A concrete note with tag list `["b"]`, used as a counterexample input. -/
def noteTagB : NoteMeta :=
  { id := "n1", title := "t", createdAt := "c", updatedAt := "u",
    important := false, filename := "f", images := [], tags := ["b"],
    linksTo := [], isDaily := false, notebookId := none }

/-- Counterexample to C6 as stated: `add_tag_to_notes` pushes the new tag at
the *end* of the tag list (`storage.rs` 563), so adding `"a"` to a note whose
tags are `["b"]` persists the unsorted list `["b", "a"]`. -/
theorem add_tag_unsorted_cex :
    ((add_tag_to_notes [noteTagB] ["n1"] "a" "t2").1.map NoteMeta.tags = [["b", "a"]]) ∧
    ¬ List.Sorted (fun x y : String => strLeB x y = true) ["b", "a"] := by
  constructor
  · rfl
  · decide

/-- C6 (amended): `add_tag_to_notes` keeps every note's tag list
duplicate-free — it skips notes that already contain the trimmed tag — and
every persisted tag list is either the old list or the old list with the
trimmed tag appended at the end (so it need not be sorted). -/
theorem add_tag_keeps_nodup (index : List NoteMeta) (noteIds : List String)
    (tag now : String) (h : ∀ n ∈ index, n.tags.Nodup) :
    (∀ m ∈ (add_tag_to_notes index noteIds tag now).1, m.tags.Nodup) ∧
    (∀ m ∈ (add_tag_to_notes index noteIds tag now).1,
      ∃ n ∈ index, m.tags = n.tags ∨ m.tags = n.tags ++ [rustTrim tag]) := by
  by_cases hg : (noteIds.isEmpty || (rustTrim tag).data.isEmpty) = true
  · constructor
    · intro m hm
      simp only [add_tag_to_notes, hg, if_true] at hm
      exact h m hm
    · intro m hm
      simp only [add_tag_to_notes, hg, if_true] at hm
      exact ⟨m, hm, Or.inl rfl⟩
  · constructor
    · intro m hm
      simp only [add_tag_to_notes, hg, if_false, Bool.false_eq_true, List.mem_map] at hm
      obtain ⟨n, hn, rfl⟩ := hm
      by_cases hc : (decide (n.id ∈ noteIds) && !(decide (rustTrim tag ∈ n.tags))) = true
      · simp only [hc, if_true]
        have hnotmem : rustTrim tag ∉ n.tags := by
          simp at hc
          exact hc.2
        simp [List.nodup_append, h n hn, hnotmem]
      · simp only [hc]
        simp
        exact h n hn
    · intro m hm
      simp only [add_tag_to_notes, hg, if_false, Bool.false_eq_true, List.mem_map] at hm
      obtain ⟨n, hn, rfl⟩ := hm
      by_cases hc : (decide (n.id ∈ noteIds) && !(decide (rustTrim tag ∈ n.tags))) = true
      · exact ⟨n, hn, by simp [hc]⟩
      · exact ⟨n, hn, by simp [hc]⟩

theorem add_tag_keeps_nodup_witness :
    (∀ n ∈ [noteTagB], n.tags.Nodup) ∧
    (∀ m ∈ (add_tag_to_notes [noteTagB] ["n2"] "a" "t2").1, m.tags.Nodup) :=
  ⟨by decide, (add_tag_keeps_nodup _ _ _ _ (by decide)).1⟩

/-- The tags of the note returned by a successful save are always the
`saveTags` of the new title and body — independent of the note's previous
tag list (`storage.rs` 246-253, 294, 309, 329). -/
theorem save_note_meta_tags (notes : List NoteMeta) (noteId : Option String)
    (title body now freshId : String) (m : NoteMeta) (notes2 : List NoteMeta)
    (h : save_note_pure notes noteId title body now freshId = some (Except.ok (m, notes2))) :
    m.tags = saveTags title body := by
  cases noteId with
  | none =>
    cases hl : extract_links_from_body body notes "" with
    | none => simp [save_note_pure, hl] at h
    | some links =>
      simp [save_note_pure, hl] at h
      rw [← h.1]
      rfl
  | some id =>
    cases hl : extract_links_from_body body notes id with
    | none => simp [save_note_pure, hl] at h
    | some links =>
      cases hv : validate_note_id id with
      | error e => simp [save_note_pure, hl, hv] at h
      | ok u =>
        cases hu : updateFirst (fun n => n.id == id)
            (fun n => { n with title := title, updatedAt := now,
                               tags := saveTags title body, linksTo := links }) notes with
        | none =>
          simp [save_note_pure, hl, hv, hu] at h
          rw [← h.1]
          rfl
        | some r =>
          simp [save_note_pure, hl, hv, hu] at h
          obtain ⟨x, hx⟩ := updateFirst_fst _ _ notes r hu
          have hm : m = r.1 := by rw [h]
          rw [hm, hx]

/-- C7: for every save with title `t` and body `b` (over any index, with or
without an explicit id), the resulting note's tag set equals the sorted,
de-duplicated union of `tagsFromBody b` and `tagsFromTitle t` — fully
replacing whatever tag set the note had before the save.  Stated as: the
saved tags are strictly sorted (hence duplicate-free) and their membership
is exactly the union of the two extractors; by `save_note_meta_tags` this
holds for *every* prior tag list. -/
theorem save_note_tags_spec (notes : List NoteMeta) (noteId : Option String)
    (title body now freshId : String) (m : NoteMeta) (notes2 : List NoteMeta)
    (h : save_note_pure notes noteId title body now freshId = some (Except.ok (m, notes2))) :
    List.Sorted (fun a b => strLtB a b = true) m.tags ∧
    (∀ x, x ∈ m.tags ↔ (x ∈ extract_tags_from_body body ∨ x ∈ extract_tags_from_title title)) := by
  rw [save_note_meta_tags notes noteId title body now freshId m notes2 h]
  constructor
  · have hs := sortStr_sorted (extract_tags_from_body body ++ extract_tags_from_title title).dedup
    have hn : (saveTags title body).Nodup :=
      (sortStr_perm _).symm.nodup (List.nodup_dedup _)
    exact (List.Pairwise.and hs hn).imp (fun hab => strLtB_of_leB_ne hab.1 hab.2)
  · intro x
    rw [saveTags, (sortStr_perm _).mem_iff, List.mem_dedup, List.mem_append]

theorem save_note_tags_spec_witness :
    (save_note_pure [] (some "a1") "Project Alpha" "hello #foo" "t0" "f0" =
      some (Except.ok (new_note_meta "a1" "Project Alpha" "t0" ["foo", "project-alpha"] [],
        [new_note_meta "a1" "Project Alpha" "t0" ["foo", "project-alpha"] []]))) ∧
    List.Sorted (fun a b => strLtB a b = true)
      (new_note_meta "a1" "Project Alpha" "t0" ["foo", "project-alpha"] []).tags :=
  ⟨rfl, (save_note_tags_spec [] (some "a1") "Project Alpha" "hello #foo" "t0" "f0" _ _ rfl).1⟩

/- ## C3: sanitize idempotence -/


/-- Does the character list end in (Unicode) whitespace? -/
def endsWithWs (l : List Char) : Bool :=
  match l.getLast? with
  | some c => rustIsWhitespace c
  | none => false

theorem sanitizeChar_idem (c : Char) : sanitizeChar (sanitizeChar c) = sanitizeChar c := by
  by_cases h1 : c ∈ forbiddenChars
  · have hc : sanitizeChar c = '_' := by rw [sanitizeChar, if_pos h1]
    rw [hc]
    decide
  · by_cases h2 : rustIsControl c = true
    · have hc : sanitizeChar c = '_' := by
        rw [sanitizeChar, if_neg h1, if_pos h2]
      rw [hc]
      decide
    · have hc : sanitizeChar c = c := by
        rw [sanitizeChar, if_neg h1, if_neg h2]
      rw [hc, hc]

theorem trimChars_subset {l : List Char} : ∀ x ∈ trimChars l, x ∈ l := by
  intro x hx
  unfold trimChars at hx
  rw [List.mem_reverse] at hx
  have h1 := (List.dropWhile_sublist (l := (l.dropWhile rustIsWhitespace).reverse) rustIsWhitespace).subset hx
  rw [List.mem_reverse] at h1
  exact (List.dropWhile_sublist rustIsWhitespace).subset h1

theorem head_dropWhile_false {p : Char → Bool} {l : List Char} {c : Char}
    (h : (l.dropWhile p).head? = some c) : p c = false := by
  have := List.head?_dropWhile_not p l
  rw [h] at this
  exact this

theorem dropWhile_of_head_false {p : Char → Bool} {l : List Char}
    (h : ∀ c, l.head? = some c → p c = false) : l.dropWhile p = l := by
  cases l with
  | nil => rfl
  | cons a t =>
    have := h a rfl
    simp [List.dropWhile, this]

theorem trim_of_no_edge_ws {l : List Char}
    (h1 : ∀ c, l.head? = some c → rustIsWhitespace c = false)
    (h2 : ∀ c, l.getLast? = some c → rustIsWhitespace c = false) :
    trimChars l = l := by
  unfold trimChars
  rw [dropWhile_of_head_false h1]
  rw [dropWhile_of_head_false (fun c hc => h2 c (by rwa [List.getLast?_eq_head?_reverse]))]
  exact List.reverse_reverse l

theorem sanitize_map_fixed (s : String) :
    (sanitize_filename s).data.map sanitizeChar = (sanitize_filename s).data := by
  have hmem : ∀ x ∈ (sanitize_filename s).data, sanitizeChar x = x := by
    intro x hx
    unfold sanitize_filename at hx
    simp only [String.mk] at hx
    have hx2 : x ∈ trimChars (s.data.map sanitizeChar) := List.take_subset _ _ hx
    have hx3 : x ∈ s.data.map sanitizeChar := trimChars_subset x hx2
    obtain ⟨y, _, hy⟩ := List.mem_map.mp hx3
    rw [← hy]
    exact sanitizeChar_idem y
  calc (sanitize_filename s).data.map sanitizeChar
      = (sanitize_filename s).data.map id := List.map_congr_left hmem
    _ = (sanitize_filename s).data := List.map_id _

theorem head_trimChars_false {l : List Char} {c : Char}
    (h : (trimChars l).head? = some c) : rustIsWhitespace c = false := by
  unfold trimChars at h
  set u := (l.dropWhile rustIsWhitespace).reverse.dropWhile rustIsWhitespace with hu
  have hsuf : u <:+ (l.dropWhile rustIsWhitespace).reverse := List.dropWhile_suffix _
  have hpre : u.reverse <+: l.dropWhile rustIsWhitespace := by
    rw [← List.reverse_suffix]
    simpa using hsuf
  obtain ⟨t, ht⟩ := hpre
  have hh : (l.dropWhile rustIsWhitespace).head? = some c := by
    rw [← ht]
    cases hrev : u.reverse with
    | nil => rw [hrev] at h; cases h
    | cons a t2 =>
      rw [hrev] at h
      simp at h
      simp [h]
  exact head_dropWhile_false hh

/-- C3 (amended): `sanitize` is idempotent on every input whose sanitized
form does not end in whitespace — in particular on every already-safe
string, and on every string whose trimmed, character-mapped form has at
most 200 characters.  (The exception carved out by
`sanitize_not_idempotent_cex` is exactly a 200-character truncation that
re-exposes trailing whitespace.) -/
theorem sanitize_idempotent_no_trailing_ws (s : String)
    (h : endsWithWs (sanitize_filename s).data = false) :
    sanitize_filename (sanitize_filename s) = sanitize_filename s := by
  have hlast : ∀ c, (sanitize_filename s).data.getLast? = some c →
      rustIsWhitespace c = false := by
    intro c hc
    unfold endsWithWs at h
    rw [hc] at h
    exact h
  have hhead : ∀ c, (sanitize_filename s).data.head? = some c →
      rustIsWhitespace c = false := by
    intro c hc
    unfold sanitize_filename at hc
    simp only [String.mk] at hc
    rw [List.head?_take] at hc
    simp at hc
    exact head_trimChars_false hc
  have hlen : (sanitize_filename s).data.length ≤ 200 := by
    unfold sanitize_filename
    simp [List.length_take]
  apply strDataEq
  show (trimChars ((sanitize_filename s).data.map sanitizeChar)).take 200 =
    (sanitize_filename s).data
  rw [sanitize_map_fixed s, trim_of_no_edge_ws hhead hlast, List.take_of_length_le hlen]

set_option maxRecDepth 40000 in
/-- Counterexample to C3 as stated: for the 201-character input of 199 `a`s,
a space, and a `b`, `sanitize_filename` trims *before* truncating to 200
characters, so the truncation re-exposes a trailing space; a second
application trims that space away, giving a 199-character result.  The
truncation point falling next to whitespace is exactly the case the claim
asserts to be a no-op. -/
theorem sanitize_not_idempotent_cex :
    sanitize_filename (sanitize_filename (String.mk (List.replicate 199 'a' ++ [' ', 'b'])))
      ≠ sanitize_filename (String.mk (List.replicate 199 'a' ++ [' ', 'b'])) := by
  decide

theorem sanitize_idempotent_witness :
    (endsWithWs (sanitize_filename "a/b").data = false) ∧
    sanitize_filename (sanitize_filename "a/b") = sanitize_filename "a/b" :=
  ⟨by decide, sanitize_idempotent_no_trailing_ws "a/b" (by decide)⟩

/- ## C5 and C1: the query engine -/


theorem sortNotesDesc_perm (l : List NoteMeta) : (sortNotesDesc l).Perm l :=
  List.perm_insertionSort _ l

theorem mem_search_tokens {notes : List NoteMeta} {bodies : String → String}
    {today wk mo : String} {toks : List String} {n : NoteMeta} :
    n ∈ search_tokens notes bodies today wk mo toks ↔
      n ∈ notes ∧
      matches_filter bodies today wk mo (toks.foldl classifyToken emptyQueryFilter) n = true := by
  unfold search_tokens
  rw [(sortNotesDesc_perm _).mem_iff, List.mem_filter]

theorem matches_filter_today {bodies : String → String} {today wk mo : String}
    {f : QueryFilter} {n : NoteMeta} (h : f.dateFilter = some "today") :
    (matches_filter bodies today wk mo f n = true ↔
      (matches_filter bodies today wk mo { f with dateFilter := none } n = true ∧
       String.mk (n.updatedAt.data.take 10) = today)) := by
  unfold matches_filter
  rw [h]
  simp only [Bool.and_eq_true, beq_iff_eq]
  simp
  tauto


/-- C5 (amended): when the parsed date filter is `today` (`date:today` is
the last date token of the query), search keeps exactly the notes that pass
every other filter *and* whose `updated_at` date prefix (first 10
characters) is **equal** to today's date — not `≥` as the claim states.
`date:week` / `date:month` do use `≥` (`storage.rs` 1070-1074). -/
theorem search_date_today_equality (notes : List NoteMeta) (bodies : String → String)
    (today wk mo : String) (toks : List String)
    (h : (toks.foldl classifyToken emptyQueryFilter).dateFilter = some "today") :
    ∀ n, n ∈ search_tokens notes bodies today wk mo toks ↔
      (n ∈ notes ∧
       matches_filter bodies today wk mo
         { toks.foldl classifyToken emptyQueryFilter with dateFilter := none } n = true ∧
       String.mk (n.updatedAt.data.take 10) = today) := by
  intro n
  rw [mem_search_tokens, matches_filter_today h]

/-- A note whose `updated_at` date lies in the far future. -/
def noteFuture : NoteMeta :=
  { id := "n2", title := "t", createdAt := "c",
    updatedAt := "9999-01-01T00:00:00+00:00",
    important := false, filename := "f", images := [], tags := [],
    linksTo := [], isDaily := false, notebookId := none }

/-- Counterexample to C5 as stated: a note dated `9999-01-01` satisfies the
claimed predicate (date prefix ≥ today, compared lexicographically) but is
dropped by `search_notes`, because the code compares `date:today` with `==`
(`storage.rs` 1071). -/
theorem date_today_geq_cex :
    search_notes [noteFuture] (fun _x => "") "date:today"
      "2026-10-12" "2026-10-05" "2026-09-12" = [] ∧
    String.mk (noteFuture.updatedAt.data.take 10) = "9999-01-01" ∧
    strLeB "2026-10-12" "9999-01-01" = true := by
  refine ⟨rfl, rfl, by decide⟩

/-- A note updated on the sample day `2026-10-12`. -/
def noteToday : NoteMeta :=
  { id := "n3", title := "t", createdAt := "c",
    updatedAt := "2026-10-12T08:00:00+00:00",
    important := false, filename := "f", images := [], tags := [],
    linksTo := [], isDaily := false, notebookId := none }

theorem search_date_today_witness :
    ((["date:today"] : List String).foldl classifyToken emptyQueryFilter).dateFilter
        = some "today" ∧
    (noteToday ∈ search_tokens [noteToday] (fun _x => "")
        "2026-10-12" "2026-10-05" "2026-09-12" ["date:today"] ↔
      (noteToday ∈ [noteToday] ∧
       matches_filter (fun _x => "") "2026-10-12" "2026-10-05" "2026-09-12"
         { (["date:today"] : List String).foldl classifyToken emptyQueryFilter with
             dateFilter := none } noteToday = true ∧
       String.mk (noteToday.updatedAt.data.take 10) = "2026-10-12")) :=
  ⟨rfl, search_date_today_equality [noteToday] (fun _x => "")
    "2026-10-12" "2026-10-05" "2026-09-12" ["date:today"] rfl noteToday⟩

/-- Filter states that agree on every field except `tagFilter`. -/
def eqExceptTag (f g : QueryFilter) : Prop :=
  f.starredOnly = g.starredOnly ∧ f.dateFilter = g.dateFilter ∧
  f.hasAttachmentsOnly = g.hasAttachmentsOnly ∧ f.hasTasksOnly = g.hasTasksOnly ∧
  f.taskFilter = g.taskFilter ∧ f.textParts = g.textParts

theorem classify_tagSet {p v : String} (h : tagValueOf p = some v) (f : QueryFilter) :
    classifyToken f p = { f with tagFilter := some v } := by
  unfold tagValueOf at h
  by_cases h1 : strStartsWith (rustToLower p) "tag:" = true
  · by_cases h2 : (rustTrim (strDropChars (rustToLower p) 4) == "") = true
    · simp [h1, h2] at h
    · simp [h1, h2] at h
      have hne : v ≠ "" := by
        intro hv0
        apply h2
        rw [h, hv0]
        rfl
      unfold classifyToken
      simp [h1, h2, h, hne]
  · simp [h1] at h

theorem classify_tagNoop_or {p : String} (h : tagValueOf p = none) (f g : QueryFilter)
    (hfg : eqExceptTag f g) : eqExceptTag (classifyToken f p) (classifyToken g p) := by
  unfold classifyToken
  unfold tagValueOf at h
  by_cases h1 : strStartsWith (rustToLower p) "tag:" = true
  · by_cases h2 : (rustTrim (strDropChars (rustToLower p) 4) == "") = true
    · simp [h1, h2]
      exact hfg
    · simp [h1, h2] at h
  · simp only [h1, Bool.false_eq_true, if_false]
    obtain ⟨e1, e2, e3, e4, e5, e6⟩ := hfg
    split_ifs <;> exact ⟨by simp [e1], by simp [e2], by simp [e3], by simp [e4],
      by simp [e5], by simp [e6]⟩

theorem foldl_classify_filtered (toks : List String) : ∀ f g : QueryFilter,
    eqExceptTag f g →
    eqExceptTag (toks.foldl classifyToken f)
      ((toks.filter (fun p => tagValueOf p == none)).foldl classifyToken g) := by
  induction toks with
  | nil => intro f g hfg; simpa using hfg
  | cons p rest ih =>
    intro f g hfg
    by_cases hp : tagValueOf p = none
    · rw [List.filter_cons]
      simp only [hp]
      simp only [List.foldl_cons]
      exact ih _ _ (classify_tagNoop_or hp f g hfg)
    · obtain ⟨v, hv⟩ := Option.ne_none_iff_exists'.mp hp
      rw [List.filter_cons]
      simp only [hv]
      simp only [List.foldl_cons]
      rw [classify_tagSet hv f]
      refine ih _ _ ?_
      obtain ⟨e1, e2, e3, e4, e5, e6⟩ := hfg
      exact ⟨e1, e2, e3, e4, e5, e6⟩

theorem queryFilter_eq_of_except {A B : QueryFilter} (h : eqExceptTag A B)
    (ht : A.tagFilter = B.tagFilter) : A = B := by
  obtain ⟨e1, e2, e3, e4, e5, e6⟩ := h
  cases A
  cases B
  simp_all

theorem classify_tagFilter_stable {p : String} (h : tagValueOf p = none)
    (f : QueryFilter) : (classifyToken f p).tagFilter = f.tagFilter := by
  unfold classifyToken
  unfold tagValueOf at h
  by_cases h1 : strStartsWith (rustToLower p) "tag:" = true
  · by_cases h2 : (rustTrim (strDropChars (rustToLower p) 4) == "") = true
    · simp [h1, h2]
    · simp [h1, h2] at h
  · simp only [h1, Bool.false_eq_true, if_false]
    split_ifs <;> rfl

theorem foldl_tagFilter_stable (post : List String)
    (h : ∀ p ∈ post, tagValueOf p = none) :
    ∀ f : QueryFilter, ((post.foldl classifyToken f).tagFilter = f.tagFilter) := by
  induction post with
  | nil => intro f; rfl
  | cons p rest ih =>
    intro f
    simp only [List.foldl_cons]
    rw [ih (fun q hq => h q (by simp [hq]))]
    exact classify_tagFilter_stable (h p (by simp)) f

theorem bool_tag_shuffle (x b c d e g : Bool) :
    (((((x && b) && c) && d) && e) && g) =
      ((((((true && b) && c) && d) && e) && g) && x) := by
  cases x <;> cases b <;> cases c <;> cases d <;> cases e <;> cases g <;> rfl

theorem matches_filter_tag {bodies : String → String} {today wk mo : String}
    {f : QueryFilter} {n : NoteMeta} {v : String} (h : f.tagFilter = some v) :
    matches_filter bodies today wk mo f n =
      (matches_filter bodies today wk mo { f with tagFilter := none } n &&
       n.tags.any (fun s => rustToLower s == v)) := by
  unfold matches_filter
  rw [h]
  exact bool_tag_shuffle _ _ _ _ _ _

/-- C1 (amended): the query parser keeps a single tag slot, so when a query
contains two or more `tag:<v>` tokens with non-empty values only the *last*
one takes effect.  Stated for the last tag-valued token `t` at *any*
position in the token list (`post` is whatever follows it and contains no
further tag-valued token): search behaves as if the earlier tag tokens were
absent, and a note is kept iff it passes every other recognized filter
(logical AND) and its tag set contains the last tag value
case-insensitively. -/
theorem search_last_tag_wins (notes : List NoteMeta) (bodies : String → String)
    (today wk mo : String) (pre post : List String) (t v : String)
    (hv : tagValueOf t = some v)
    (hpost : ∀ p ∈ post, tagValueOf p = none) :
    search_tokens notes bodies today wk mo (pre ++ t :: post) =
      search_tokens notes bodies today wk mo
        ((pre.filter (fun p => tagValueOf p == none)) ++ t :: post) ∧
    ∀ n, n ∈ search_tokens notes bodies today wk mo (pre ++ t :: post) ↔
      (n ∈ notes ∧
       matches_filter bodies today wk mo
         { (pre ++ t :: post).foldl classifyToken emptyQueryFilter with
             tagFilter := none } n = true ∧
       ∃ s ∈ n.tags, rustToLower s = v) := by
  have hinner : (pre ++ [t]).foldl classifyToken emptyQueryFilter =
      ((pre.filter (fun p => tagValueOf p == none)) ++ [t]).foldl classifyToken
        emptyQueryFilter := by
    rw [List.foldl_append, List.foldl_append]
    simp only [List.foldl_cons, List.foldl_nil]
    rw [classify_tagSet hv, classify_tagSet hv]
    have hAB := foldl_classify_filtered pre emptyQueryFilter emptyQueryFilter
      ⟨rfl, rfl, rfl, rfl, rfl, rfl⟩
    apply queryFilter_eq_of_except
    · obtain ⟨e1, e2, e3, e4, e5, e6⟩ := hAB
      exact ⟨by simpa using e1, by simpa using e2, by simpa using e3,
        by simpa using e4, by simpa using e5, by simpa using e6⟩
    · rfl
  have hparse : (pre ++ t :: post).foldl classifyToken emptyQueryFilter =
      ((pre.filter (fun p => tagValueOf p == none)) ++ t :: post).foldl classifyToken
        emptyQueryFilter := by
    calc (pre ++ t :: post).foldl classifyToken emptyQueryFilter
        = ((pre ++ [t]) ++ post).foldl classifyToken emptyQueryFilter := by
          rw [List.append_assoc]
          rfl
      _ = post.foldl classifyToken ((pre ++ [t]).foldl classifyToken emptyQueryFilter) :=
          List.foldl_append _ _ _ _
      _ = post.foldl classifyToken
            (((pre.filter (fun p => tagValueOf p == none)) ++ [t]).foldl classifyToken
              emptyQueryFilter) := by rw [hinner]
      _ = (((pre.filter (fun p => tagValueOf p == none)) ++ [t]) ++ post).foldl
            classifyToken emptyQueryFilter := (List.foldl_append _ _ _ _).symm
      _ = ((pre.filter (fun p => tagValueOf p == none)) ++ t :: post).foldl
            classifyToken emptyQueryFilter := by
          rw [List.append_assoc]
          rfl
  have hf : ((pre ++ t :: post).foldl classifyToken emptyQueryFilter).tagFilter
      = some v := by
    have h1 : pre ++ t :: post = (pre ++ [t]) ++ post := by
      rw [List.append_assoc]
      rfl
    rw [h1, List.foldl_append, foldl_tagFilter_stable post hpost,
      List.foldl_append]
    simp only [List.foldl_cons, List.foldl_nil]
    rw [classify_tagSet hv]
  constructor
  · unfold search_tokens
    rw [hparse]
  · intro n
    rw [mem_search_tokens, matches_filter_tag hf]
    simp only [Bool.and_eq_true, List.any_eq_true, beq_iff_eq]

/-- A note whose only tag is `home`. -/
def noteTagHome : NoteMeta :=
  { id := "n1", title := "t", createdAt := "c", updatedAt := "u",
    important := false, filename := "f", images := [], tags := ["home"],
    linksTo := [], isDaily := false, notebookId := none }

/-- Counterexample to C1 as stated: for the query `"tag:work tag:home"` the
claim keeps only notes tagged both `work` and `home`; the code keeps a note
tagged only `home`, because the second `tag:` token overwrites the first
(`storage.rs` 1034-1038). -/
theorem multi_tag_filter_cex :
    search_notes [noteTagHome] (fun _x => "") "tag:work tag:home" "d" "d" "d"
      = [noteTagHome] ∧
    ¬ ∃ s ∈ noteTagHome.tags, rustToLower s = "work" := by
  refine ⟨rfl, by decide⟩

theorem search_last_tag_wins_witness :
    tagValueOf "tag:home" = some "home" ∧
    (∀ p ∈ ["meeting"], tagValueOf p = none) ∧
    search_tokens [noteTagHome] (fun _x => "") "d" "d" "d"
        (["tag:work"] ++ "tag:home" :: ["meeting"]) =
      search_tokens [noteTagHome] (fun _x => "") "d" "d" "d"
        ((["tag:work"].filter (fun p => tagValueOf p == none)) ++
          "tag:home" :: ["meeting"]) :=
  ⟨rfl, by decide, (search_last_tag_wins [noteTagHome] (fun _x => "") "d" "d" "d"
    ["tag:work"] ["meeting"] "tag:home" "home" rfl (by decide)).1⟩

/- ## C2: version snapshot retention -/


theorem data_append (a b : String) : (a ++ b).data = a.data ++ b.data := rfl

theorem strLtB_asymm {a b : String} (h1 : strLtB a b = true) (h2 : strLtB b a = true) :
    False := by
  have := charListLtB_trans _ _ _ h1 h2
  rw [charListLtB_irrefl] at this
  cases this

theorem version_filename_json (s : String) :
    strEndsWith (version_filename s) ".json" = true := by
  unfold strEndsWith version_filename
  rw [data_append]
  simp [List.length_append, List.drop_left]

theorem sortStrDesc_perm (l : List String) : (sortStrDesc l).Perm l :=
  List.perm_insertionSort _ l

theorem sortStrDesc_sorted (l : List String) :
    List.Sorted (fun a b => strLeB b a = true) (sortStrDesc l) :=
  List.sorted_insertionSort _ l

/-- C2: saving an existing note whose body file is on disk writes exactly
one new snapshot whose `saved_at` equals the note's `updated_at` from just
before the save (`snapshot_of`), and after the prune step at most
`MAX_VERSIONS_PER_NOTE = 30` snapshot files remain — exactly the most
recent ones, every kept snapshot being strictly newer than every pruned
one (oldest pruned first).  `savedAts` are the `saved_at` values of the
snapshots already in the note's version directory; the hypotheses say the
directory has no duplicate filenames, the new snapshot is fresh and newest
(updated_at is monotone), and filename order agrees with `saved_at` order —
all true of the RFC3339 timestamps the code uses. -/
theorem save_version_retention
    (n : NoteMeta) (bodyOnDisk : String) (savedAts : List String)
    (hnodup : (savedAts.map version_filename).Nodup)
    (hfresh : version_filename n.updatedAt ∉ savedAts.map version_filename)
    (hmax : ∀ s ∈ savedAts,
      strLtB (version_filename s) (version_filename n.updatedAt) = true)
    (hord : ∀ a ∈ n.updatedAt :: savedAts, ∀ b ∈ n.updatedAt :: savedAts,
      (strLtB a b = true ↔ strLtB (version_filename a) (version_filename b) = true)) :
    (snapshot_of n bodyOnDisk).savedAt = n.updatedAt ∧
    version_filename n.updatedAt ∈ versionStep (savedAts.map version_filename) n.updatedAt ∧
    (versionStep (savedAts.map version_filename) n.updatedAt).length
      = min (savedAts.length + 1) MAX_VERSIONS_PER_NOTE ∧
    (∀ s ∈ n.updatedAt :: savedAts, ∀ t ∈ n.updatedAt :: savedAts,
      version_filename s ∈ versionStep (savedAts.map version_filename) n.updatedAt →
      version_filename t ∉ versionStep (savedAts.map version_filename) n.updatedAt →
      strLtB t s = true) := by
  set name := version_filename n.updatedAt with hname
  set dir := savedAts.map version_filename with hdir
  set D1 := dir ++ [name] with hD1
  have hjson : D1.filter (fun f => strEndsWith f ".json") = D1 := by
    apply List.filter_eq_self.mpr
    intro f hf
    rw [hD1, List.mem_append] at hf
    rcases hf with hf | hf
    · rw [hdir] at hf
      obtain ⟨s, _, rfl⟩ := List.mem_map.mp hf
      exact version_filename_json s
    · rw [List.mem_singleton.mp hf, hname]
      exact version_filename_json n.updatedAt
  have hstep : versionStep dir n.updatedAt = D1.filter
      (fun f => !(decide (f ∈ (sortStrDesc D1).drop MAX_VERSIONS_PER_NOTE))) := by
    have h1 : (if version_filename n.updatedAt ∈ dir then dir
        else dir ++ [version_filename n.updatedAt]) = D1 := by
      rw [if_neg hfresh]
    simp only [versionStep]
    rw [h1, hjson]
  set S := sortStrDesc D1 with hS
  set D := S.drop MAX_VERSIONS_PER_NOTE with hD
  set T := S.take MAX_VERSIONS_PER_NOTE with hT
  have hTD : T ++ D = S := List.take_append_drop _ _
  have hpermS : S.Perm D1 := sortStrDesc_perm D1
  have hnodupD1 : D1.Nodup := by
    rw [hD1, List.nodup_append]
    refine ⟨hnodup, List.nodup_singleton _, ?_⟩
    intro x hx hx1
    rw [List.mem_singleton.mp hx1] at hx
    exact hfresh hx
  have hnodupS : S.Nodup := hpermS.symm.nodup hnodupD1
  have hsortS : List.Sorted (fun a b => strLeB b a = true) S := sortStrDesc_sorted D1
  have hdisj : ∀ x ∈ T, x ∉ D := by
    intro x hx
    have := List.disjoint_of_nodup_append (by rw [hTD]; exact hnodupS)
    exact this hx
  have hRT : (D1.filter (fun f => !(decide (f ∈ D)))).Perm T := by
    have h1 : (D1.filter (fun f => !(decide (f ∈ D)))).Perm
        (S.filter (fun f => !(decide (f ∈ D)))) := hpermS.symm.filter _
    have h2 : S.filter (fun f => !(decide (f ∈ D))) = T := by
      rw [← hTD, List.filter_append]
      have hDnil : D.filter (fun f => !(decide (f ∈ D))) = [] := by
        apply List.filter_eq_nil_iff.mpr
        intro a ha
        simp [ha]
      have hTall : T.filter (fun f => !(decide (f ∈ D))) = T := by
        apply List.filter_eq_self.mpr
        intro a ha
        simp [hdisj a ha]
      rw [hDnil, hTall, List.append_nil]
    rw [h2] at h1
    exact h1
  have hlenD1 : D1.length = savedAts.length + 1 := by
    rw [hD1, List.length_append, hdir, List.length_map]
    rfl
  have hmemS : ∀ x, x ∈ S ↔ x ∈ D1 := fun x => hpermS.mem_iff
  -- the new snapshot's filename is kept
  have hnameT : name ∈ T := by
    have hnameD1 : name ∈ D1 := by
      rw [hD1, List.mem_append]
      exact Or.inr (List.mem_singleton.mpr rfl)
    have hnameS : name ∈ S := (hmemS name).mpr hnameD1
    by_cases hnameD : name ∈ D
    · exfalso
      have hSpos : 0 < S.length := List.length_pos.mpr (by
        intro hnil
        rw [hnil] at hnameS
        cases hnameS)
      have hTpos : 0 < T.length := by
        rw [hT, List.length_take]
        have h30 : MAX_VERSIONS_PER_NOTE = 30 := rfl
        omega
      obtain ⟨y, hy⟩ := List.exists_mem_of_ne_nil T (List.length_pos.mp hTpos)
      have hpair : ∀ a ∈ T, ∀ b ∈ D, strLeB b a = true := by
        have := hsortS
        rw [← hTD] at this
        exact (List.pairwise_append.mp this).2.2
      have hle : strLeB name y = true := hpair y hy name hnameD
      have hne : name ≠ y := fun he => hdisj y hy (he ▸ hnameD)
      have hlt : strLtB name y = true := strLtB_of_leB_ne hle hne
      have hyD1 : y ∈ D1 := (hmemS y).mp (by rw [← hTD]; exact List.mem_append.mpr (Or.inl hy))
      rw [hD1, List.mem_append] at hyD1
      rcases hyD1 with hyd | hy1
      · rw [hdir] at hyd
        obtain ⟨s, hs, rfl⟩ := List.mem_map.mp hyd
        exact strLtB_asymm hlt (hmax s hs)
      · exact hne (List.mem_singleton.mp hy1).symm
    · rw [← hTD, List.mem_append] at hnameS
      rcases hnameS with h | h
      · exact h
      · exact absurd h hnameD
  refine ⟨rfl, ?_, ?_, ?_⟩
  · rw [hstep, hRT.mem_iff]
    exact hnameT
  · rw [hstep, hRT.length_eq, hT, List.length_take, hpermS.length_eq, hlenD1,
      Nat.min_comm]
  · intro s hs t ht hsR htR
    rw [hstep, hRT.mem_iff] at hsR htR
    have htD1 : version_filename t ∈ D1 := by
      rw [hD1, List.mem_append]
      rcases List.mem_cons.mp ht with h | h
      · right
        rw [h, ← hname]
        exact List.mem_singleton.mpr rfl
      · left
        rw [hdir]
        exact List.mem_map.mpr ⟨t, h, rfl⟩
    have htS : version_filename t ∈ S := (hmemS _).mpr htD1
    have htD : version_filename t ∈ D := by
      rw [← hTD, List.mem_append] at htS
      rcases htS with h | h
      · exact absurd h htR
      · exact h
    have hpair : ∀ a ∈ T, ∀ b ∈ D, strLeB b a = true := by
      have := hsortS
      rw [← hTD] at this
      exact (List.pairwise_append.mp this).2.2
    have hle : strLeB (version_filename t) (version_filename s) = true :=
      hpair _ hsR _ htD
    have hne : version_filename t ≠ version_filename s := by
      intro he
      exact hdisj _ hsR (he ▸ htD)
    have hlt : strLtB (version_filename t) (version_filename s) = true :=
      strLtB_of_leB_ne hle hne
    exact (hord t ht s hs).mpr hlt

/-- The note whose existing body is overwritten in the sample save. -/
def noteV : NoteMeta :=
  { id := "nv", title := "t", createdAt := "t0", updatedAt := "t4",
    important := false, filename := "f", images := [], tags := [],
    linksTo := [], isDaily := false, notebookId := none }

theorem save_version_retention_witness :
    (∀ s ∈ ["t1", "t2", "t3"],
      strLtB (version_filename s) (version_filename noteV.updatedAt) = true) ∧
    version_filename noteV.updatedAt ∈
      versionStep (["t1", "t2", "t3"].map version_filename) noteV.updatedAt :=
  ⟨by decide, (save_version_retention noteV "body" ["t1", "t2", "t3"]
    (by decide) (by decide) (by decide) (by decide)).2.1⟩

end LocalNotes
